import Mathlib

/-!
Shallow embedding of the Comunity-Installer core (`main.py`) and proofs about
its resolution, fetch, install, state-ledger and update-reconciliation logic.

External effects are made explicit:
* the network is a success oracle `net : String → Bool` (whether fetching a
  given url succeeds), and the shell is an oracle `ok : String → Bool`
  (whether a given command exits with status zero);
* the filesystem state visible to the program is a `World`: whether the
  download directory exists, which filenames it holds, and a log of network
  requests issued (most recent first);
* `sys.exit(1)` is the `.error` constructor of `Except`; the `.ok`
  constructor is normal control flow;
* the executed shell commands are accumulated in a trace list, and the
  console announcements of the update reconciler ("... available. Updating.")
  in an `announced` list;
* `subprocess.getoutput("date")` is a parameter `now : String`.
-/

set_option autoImplicit false
set_option linter.unusedVariables false

namespace Comin

/-- Decidable equality of `Except` results, so concrete runs of the
embedded program can be checked by `decide`. -/
instance exceptDecEq {ε α : Type} [DecidableEq ε] [DecidableEq α] :
    DecidableEq (Except ε α) := fun x y =>
  match x, y with
  | .ok a, .ok b =>
    if h : a = b then isTrue (by rw [h])
    else isFalse (fun hc => h (Except.ok.inj hc))
  | .error a, .error b =>
    if h : a = b then isTrue (by rw [h])
    else isFalse (fun hc => h (Except.error.inj hc))
  | .ok _, .error _ => isFalse (fun hc => Except.noConfusion hc)
  | .error _, .ok _ => isFalse (fun hc => Except.noConfusion hc)

/-- A package record of the index (`index.json` entry).  `url = none` models
a record without a `url` key; the code also treats `some ""` as absent
(Python truthiness).  `install_commands` is the mapping platform key →
command list. -/
structure Package where
  name : String
  version : String
  url : Option String
  install_commands : List (String × List String)
deriving DecidableEq

/-- One entry of the persisted state ledger (`comin_state.json` value). -/
structure Entry where
  version : String
  installed_at : String
deriving DecidableEq

/-- The ledger: package name → entry, as an ordered association list
(Python dicts preserve insertion order). -/
abbrev Ledger := List (String × Entry)

/-- Observable filesystem / network state. -/
structure World where
  dirExists : Bool
  files : List String
  netLog : List String
deriving DecidableEq

/-- Python `s.lower()` as a structural function on the character list
(ASCII case folding, which is all the code relies on). -/
def strLower (s : String) : String :=
  ⟨s.data.map Char.toLower⟩

/-- Python `s.split(sep)` for a one-character separator, as a structural
function on the character list (`"".split(sep) = [""]`, a trailing
separator yields a trailing empty segment, exactly as in Python). -/
def splitChar (sep : Char) : List Char → List (List Char)
  | [] => [[]]
  | c :: cs =>
    let rest := splitChar sep cs
    if c = sep then [] :: rest
    else
      match rest with
      | [] => [[c]]
      | s :: ss => (c :: s) :: ss

/-- `pkg['url'].split('/')[-1]` — the final path segment of the url. -/
def filenameOf (url : String) : String :=
  ⟨(splitChar '/' url.data).getLastD []⟩

/-- `download_package` of `main.py` (lines 54–88).  It first runs
`DOWNLOAD_DIR.mkdir(exist_ok=True)`, then: no (or empty) url → `None`;
cached filename → return it without any request; otherwise issue the
request, and on success store the file and return its name, on failure
return `None`. -/
def download_package (net : String → Bool) (pkg : Package) (w : World) :
    Option String × World :=
  let w1 : World := { w with dirExists := true }
  match pkg.url with
  | none => (none, w1)
  | some u =>
    if u = "" then (none, w1)
    else
      let fname := filenameOf u
      if fname ∈ w1.files then (some fname, w1)
      else
        let w2 : World := { w1 with netLog := u :: w1.netLog }
        if net u then (some fname, { w2 with files := fname :: w2.files })
        else (none, w2)

/-- `pkg['install_commands'].get(platform_key, [])`. -/
def cmdsFor (pkg : Package) (platformKey : String) : List String :=
  (pkg.install_commands.lookup platformKey).getD []

/-- `execute_commands` of `main.py` (lines 90–97): run the commands in
order; the first failing command calls `sys.exit(1)` (`.error`).  The
carried list is the trace of commands actually executed, the failing one
included. -/
def execute_commands (ok : String → Bool) : List String → Except (List String) (List String)
  | [] => .ok []
  | c :: cs =>
    if ok c then
      match execute_commands ok cs with
      | .ok t => .ok (c :: t)
      | .error t => .error (c :: t)
    else .error [c]

/-- `install_package` of `main.py` (lines 99–106).  The
`downloaded_file` argument is accepted and ignored, exactly as in the
source.  An empty command list for the platform reports and returns
(no command executed). -/
def install_package (ok : String → Bool) (pkg : Package)
    (downloaded_file : Option String) (platformKey : String) :
    Except (List String) (List String) :=
  let cmds := cmdsFor pkg platformKey
  if cmds.isEmpty then .ok []
  else execute_commands ok cmds

/-- `load_state` of `main.py` (lines 108–119), with the file read and the
JSON parse abstracted into `fileExists` and `parsed` (`none` models any
exception while reading or parsing). -/
def load_state (fileExists : Bool) (parsed : Option Ledger) : Ledger :=
  if fileExists then
    match parsed with
    | some st => st
    | none => []
  else []

/-- Python dict assignment `state[name] = e`: replace in place when the key
is present, append otherwise. -/
def setEntry (st : Ledger) (name : String) (e : Entry) : Ledger :=
  if st.any (fun kv => kv.1 == name) then
    st.map (fun kv => if kv.1 == name then (name, e) else kv)
  else st ++ [(name, e)]

/-- The per-package body of the install loops of `main` (lines 218–224 and
247–253): download, call `install_package` (whatever the download
returned), then unconditionally write the ledger entry.  A failing command
aborts (`.error`) carrying the world and trace; the in-memory ledger is
discarded because `save_state` only runs after the loop completes. -/
def installLoop (net ok : String → Bool) (platformKey now : String) :
    List Package → Ledger → World → List String →
    Except (World × List String) (Ledger × World × List String)
  | [], st, w, tr => .ok (st, w, tr)
  | pkg :: ps, st, w, tr =>
    let dw := download_package net pkg w
    match install_package ok pkg dw.1 platformKey with
    | .error t => .error (dw.2, tr ++ t)
    | .ok t =>
      installLoop net ok platformKey now ps
        (setEntry st pkg.name ⟨pkg.version, now⟩) dw.2 (tr ++ t)

/-- Accumulated state of `update_packages`: ledger, world, executed-command
trace, the `updates_available` flag, and the names announced for update. -/
structure UState where
  st : Ledger
  w : World
  trace : List String
  updated : Bool
  announced : List String
deriving DecidableEq

/-- The shared body of the two update branches of `update_packages`
(lines 136–143 and 146–153): download; if a file was returned, install and
overwrite the ledger entry and set `updates_available`; otherwise do
nothing further. -/
def performUpdate (net ok : String → Bool) (platformKey now : String)
    (s : UState) (pkg : Package) : Except UState UState :=
  let dw := download_package net pkg s.w
  match dw.1 with
  | some f =>
    match install_package ok pkg (some f) platformKey with
    | .error t => .error { s with w := dw.2, trace := s.trace ++ t }
    | .ok t =>
      .ok { s with
            st := setEntry s.st pkg.name ⟨pkg.version, now⟩,
            w := dw.2, trace := s.trace ++ t, updated := true }
  | none => .ok { s with w := dw.2 }

/-- The per-package body of `update_packages` (lines 129–153): only
packages with a ledger entry are considered; the two version tests select
the update branches, which first announce the update (the console.print of
the branch, modelled by appending the package name to `announced`). -/
def updateStep (net ok : String → Bool) (platformKey now : String)
    (s : UState) (pkg : Package) : Except UState UState :=
  match s.st.lookup pkg.name with
  | some entry =>
    if pkg.version == "latest" && entry.version != "latest" then
      performUpdate net ok platformKey now
        { s with announced := s.announced ++ [pkg.name] } pkg
    else if pkg.version != "latest" && entry.version != pkg.version then
      performUpdate net ok platformKey now
        { s with announced := s.announced ++ [pkg.name] } pkg
    else .ok s
  | none => .ok s

/-- `update_packages` of `main.py` (lines 126–158): fold the step over the
index catalog, aborting when a command fails. -/
def update_packages (net ok : String → Bool) (platformKey now : String) :
    List Package → UState → Except UState UState
  | [], s => .ok s
  | pkg :: ps, s =>
    match updateStep net ok platformKey now s pkg with
    | .error s' => .error s'
    | .ok s' => update_packages net ok platformKey now ps s'

/-- The announced-update list of an `update_packages` outcome, aborted or
not. -/
def announcedOf : Except UState UState → List String
  | .ok s => s.announced
  | .error s => s.announced

/-- `next((p for p in packages if p['name'].lower() == pkg_name.lower()), None)`:
first catalog record whose name equals the token case-insensitively. -/
def lookupPkg (packages : List Package) (tok : String) : Option Package :=
  packages.find? (fun p => strLower p.name == strLower tok)

/-- One step of the selection loops of `main` (lines 205–211 and 235–240):
resolve a requested name; a found record is appended unless already
selected; an unknown name appends a warning (`warnMsg` builds the message,
which differs between the two modes). -/
def selectStep (packages : List Package) (warnMsg : String → String)
    (acc : List Package × List String) (pkg_name : String) :
    List Package × List String :=
  match lookupPkg packages pkg_name with
  | some p => if p ∈ acc.1 then acc else (acc.1 ++ [p], acc.2)
  | none => (acc.1, acc.2 ++ [warnMsg pkg_name])

/-- The selection component of `selectStep`, without the warning list
(used to reason about the selected packages alone). -/
def selectStep1 (packages : List Package) (sel : List Package) (tok : String) :
    List Package :=
  match lookupPkg packages tok with
  | some p => if p ∈ sel then sel else sel ++ [p]
  | none => sel

/-- Warning text of install mode (line 211). -/
def installWarn (pkg_name : String) : String :=
  "Specified package " ++ pkg_name ++ " not found."

/-- The install-mode Selection Resolver (`main`, lines 203–211): selected
records and warnings. -/
def resolveInstall (packages : List Package) (tokens : List String) :
    List Package × List String :=
  tokens.foldl (selectStep packages installWarn) ([], [])

/-- One step of the pattern loop of `main` (lines 230–240):
`patterns.get(pattern_name.lower(), [])`, warn and skip when the result is
empty, otherwise resolve each contained package name. -/
def resolvePatternStep (packages : List Package)
    (patterns : List (String × List String))
    (acc : List Package × List String) (pattern_name : String) :
    List Package × List String :=
  let pkg_names := (patterns.lookup (strLower pattern_name)).getD []
  if pkg_names.isEmpty then
    (acc.1, acc.2 ++ ["Pattern " ++ pattern_name ++ " not found."])
  else
    pkg_names.foldl
      (selectStep packages
        (fun n => "Package " ++ n ++ " in pattern " ++ pattern_name ++ " not found."))
      acc

/-- The pattern-mode Selection Resolver (`main`, lines 228–240). -/
def resolvePattern (packages : List Package)
    (patterns : List (String × List String)) (tokens : List String) :
    List Package × List String :=
  tokens.foldl (resolvePatternStep packages patterns) ([], [])

/-- Outcome of one run of a mode of `main`. -/
inductive RunOutcome where
  | exitSuccess (warns : List String)
  | finished (st : Ledger) (w : World) (tr : List String) (warns : List String)
  | aborted (w : World) (tr : List String) (warns : List String)
deriving DecidableEq

/-- The pattern-mode branch of `main` (lines 228–255): resolve, exit 0 on
an empty selection, otherwise run the install loop and save the state on
completion. -/
def mainPattern (net ok : String → Bool) (platformKey now : String)
    (packages : List Package) (patterns : List (String × List String))
    (tokens : List String) (st : Ledger) (w : World) : RunOutcome :=
  let rp := resolvePattern packages patterns tokens
  if rp.1.isEmpty then .exitSuccess rp.2
  else
    match installLoop net ok platformKey now rp.1 st w [] with
    | .ok (st', w', tr) => .finished st' w' tr rp.2
    | .error (w', tr) => .aborted w' tr rp.2

/-- First-seen deduplication, written from the specification's words: keep
each element exactly when it has not been seen before, preserving order.
Used to state that the source resolver refines it. -/
def specFirstSeenDedupAux {α : Type} [DecidableEq α] (seen : List α) :
    List α → List α
  | [] => []
  | x :: xs =>
    if x ∈ seen then specFirstSeenDedupAux seen xs
    else x :: specFirstSeenDedupAux (x :: seen) xs

/-- First-seen deduplication from an empty memory. -/
def specFirstSeenDedup {α : Type} [DecidableEq α] (l : List α) : List α :=
  specFirstSeenDedupAux [] l

/-! ## Helper lemmas -/

/-- With the url absent or empty, the Fetcher returns no artifact and its
only effect is `DOWNLOAD_DIR.mkdir(exist_ok=True)`. -/
theorem download_package_no_url (net : String → Bool) (pkg : Package) (w : World)
    (h : pkg.url = none ∨ pkg.url = some "") :
    download_package net pkg w = (none, { w with dirExists := true }) := by
  rcases h with h | h <;> simp [download_package, h]

/-- `performUpdate` never touches the announced list. -/
theorem announcedOf_performUpdate (net ok : String → Bool) (platformKey now : String)
    (s : UState) (pkg : Package) :
    announcedOf (performUpdate net ok platformKey now s pkg) = s.announced := by
  unfold performUpdate
  cases hdw : (download_package net pkg s.w).1 with
  | none => simp [announcedOf, hdw]
  | some f =>
    cases hi : install_package ok pkg (some f) platformKey with
    | error t => simp [announcedOf, hdw, hi]
    | ok t => simp [announcedOf, hdw, hi]

/-- Commands that all succeed run to completion in order. -/
theorem execute_commands_all_ok (ok : String → Bool) (cmds : List String)
    (h : ∀ c ∈ cmds, ok c = true) :
    execute_commands ok cmds = .ok cmds := by
  induction cmds with
  | nil => rfl
  | cons c cs ih =>
    have hc : ok c = true := h c (List.mem_cons_self c cs)
    have hcs := ih (fun x hx => h x (List.mem_cons_of_mem c hx))
    simp [execute_commands, hc, hcs]

/-- The first failing command aborts `execute_commands`: the trace stops
at the failing command and none of the following commands runs. -/
theorem execute_commands_first_failure (ok : String → Bool) (pre : List String)
    (c : String) (post : List String)
    (hpre : ∀ x ∈ pre, ok x = true) (hc : ok c = false) :
    execute_commands ok (pre ++ c :: post) = .error (pre ++ [c]) := by
  induction pre with
  | nil => simp [execute_commands, hc]
  | cons x xs ih =>
    have hx : ok x = true := hpre x (List.mem_cons_self x xs)
    have hxs := ih (fun y hy => hpre y (List.mem_cons_of_mem x hy))
    simp [execute_commands, hx, hxs]

/-- A completed prefix of the install loop composes with the rest. -/
theorem installLoop_append (net ok : String → Bool) (platformKey now : String)
    (l₁ l₂ : List Package) (st st' : Ledger) (w w' : World) (tr tr' : List String)
    (h : installLoop net ok platformKey now l₁ st w tr = .ok (st', w', tr')) :
    installLoop net ok platformKey now (l₁ ++ l₂) st w tr =
      installLoop net ok platformKey now l₂ st' w' tr' := by
  induction l₁ generalizing st w tr with
  | nil =>
    simp only [installLoop, Except.ok.injEq, Prod.mk.injEq] at h
    obtain ⟨h1, h2, h3⟩ := h
    subst h1 h2 h3
    rfl
  | cons p ps ih =>
    simp only [installLoop] at h ⊢
    cases hi : install_package ok p (download_package net p w).1 platformKey with
    | error t => rw [hi] at h; simp at h
    | ok t => rw [hi] at h; exact ih _ _ _ h

/-- The selected-packages component of a selection step ignores the
warning list. -/
theorem selectStep_fst (packages : List Package) (m : String → String)
    (acc : List Package × List String) (tok : String) :
    (selectStep packages m acc tok).1 = selectStep1 packages acc.1 tok := by
  unfold selectStep selectStep1
  cases lookupPkg packages tok with
  | none => rfl
  | some p => by_cases hm : p ∈ acc.1 <;> simp [hm]

/-- The selected-packages component of a whole selection run ignores the
warning list. -/
theorem foldl_selectStep_fst (packages : List Package) (m : String → String)
    (tokens : List String) :
    ∀ acc : List Package × List String,
      (tokens.foldl (selectStep packages m) acc).1 =
        tokens.foldl (selectStep1 packages) acc.1 := by
  induction tokens with
  | nil => intro acc; rfl
  | cons t ts ih =>
    intro acc
    simp only [List.foldl_cons]
    rw [ih (selectStep packages m acc t), selectStep_fst]

/-- Selection is the first-seen deduplicating fold of the per-token
lookups. -/
theorem foldl_selectStep1_filterMap (packages : List Package)
    (tokens : List String) :
    ∀ sel : List Package,
      tokens.foldl (selectStep1 packages) sel =
        (tokens.filterMap (lookupPkg packages)).foldl
          (fun acc x => if x ∈ acc then acc else acc ++ [x]) sel := by
  induction tokens with
  | nil => intro sel; rfl
  | cons t ts ih =>
    intro sel
    cases h : lookupPkg packages t with
    | none =>
      have hs : selectStep1 packages sel t = sel := by simp [selectStep1, h]
      simp only [List.foldl_cons, List.filterMap_cons, h, hs]
      exact ih sel
    | some p =>
      have hs : selectStep1 packages sel t =
          if p ∈ sel then sel else sel ++ [p] := by simp [selectStep1, h]
      simp only [List.foldl_cons, List.filterMap_cons, h, hs]
      exact ih _

/-- The append-if-new fold is first-seen deduplication relative to any
memory with the same members as the accumulator. -/
theorem dedupFold_eq_aux {α : Type} [DecidableEq α] (l : List α) :
    ∀ acc seen : List α, (∀ x : α, x ∈ acc ↔ x ∈ seen) →
      l.foldl (fun acc x => if x ∈ acc then acc else acc ++ [x]) acc =
        acc ++ specFirstSeenDedupAux seen l := by
  induction l with
  | nil => intro acc seen h; simp [specFirstSeenDedupAux]
  | cons x xs ih =>
    intro acc seen h
    by_cases hx : x ∈ acc
    · have hx' : x ∈ seen := (h x).mp hx
      simp only [List.foldl_cons, if_pos hx, specFirstSeenDedupAux, if_pos hx']
      exact ih acc seen h
    · have hx' : x ∉ seen := fun hc => hx ((h x).mpr hc)
      have h2 : ∀ y : α, y ∈ acc ++ [x] ↔ y ∈ x :: seen := by
        intro y
        simp only [List.mem_append, List.mem_cons, List.mem_singleton, h y]
        tauto
      simp only [List.foldl_cons, if_neg hx, specFirstSeenDedupAux, if_neg hx']
      rw [ih (acc ++ [x]) (x :: seen) h2, List.append_assoc]
      rfl

/-- Elements of a first-seen deduplication come from the input list. -/
theorem mem_specFirstSeenDedupAux {α : Type} [DecidableEq α] (l : List α) :
    ∀ (seen : List α) (x : α), x ∈ specFirstSeenDedupAux seen l → x ∈ l := by
  induction l with
  | nil => intro seen x hx; simp [specFirstSeenDedupAux] at hx
  | cons y ys ih =>
    intro seen x hx
    by_cases hy : y ∈ seen
    · simp only [specFirstSeenDedupAux, if_pos hy] at hx
      exact List.mem_cons_of_mem y (ih seen x hx)
    · simp only [specFirstSeenDedupAux, if_neg hy] at hx
      rcases List.mem_cons.mp hx with h | h
      · subst h; exact List.mem_cons_self x ys
      · exact List.mem_cons_of_mem y (ih (y :: seen) x h)

/-- A first-seen deduplication has no duplicates and avoids the memory. -/
theorem nodup_specFirstSeenDedupAux {α : Type} [DecidableEq α] (l : List α) :
    ∀ seen : List α, (specFirstSeenDedupAux seen l).Nodup ∧
      ∀ x ∈ specFirstSeenDedupAux seen l, x ∉ seen := by
  induction l with
  | nil => intro seen; simp [specFirstSeenDedupAux]
  | cons y ys ih =>
    intro seen
    by_cases hy : y ∈ seen
    · simp only [specFirstSeenDedupAux, if_pos hy]
      exact ih seen
    · simp only [specFirstSeenDedupAux, if_neg hy]
      obtain ⟨hnd, hmem⟩ := ih (y :: seen)
      refine ⟨List.nodup_cons.mpr ⟨?_, hnd⟩, ?_⟩
      · intro hyin
        exact (hmem y hyin) (List.mem_cons_self y seen)
      · intro x hx
        rcases List.mem_cons.mp hx with h | h
        · subst h; exact hy
        · intro hxs
          exact (hmem x h) (List.mem_cons_of_mem y hxs)

/-- A record found for some token is also the record found for its own
name: `find?` with the same case-insensitive key yields the same result. -/
theorem lookupPkg_self (packages : List Package) (tok : String) (p : Package)
    (h : lookupPkg packages tok = some p) :
    lookupPkg packages p.name = some p := by
  unfold lookupPkg at h ⊢
  have hbeq := List.find?_some h
  have heq : strLower p.name = strLower tok := eq_of_beq hbeq
  simp only [heq]
  exact h

/-- Two self-found records with the same lowercased name are equal. -/
theorem lookupPkg_name_inj (packages : List Package) (a b : Package)
    (ha : lookupPkg packages a.name = some a)
    (hb : lookupPkg packages b.name = some b)
    (hn : strLower a.name = strLower b.name) : a = b := by
  unfold lookupPkg at ha hb
  simp only [hn] at ha
  exact Option.some.inj (ha.symm.trans hb)

/-! ## The claims -/

/-- C8: the State Ledger `load_state` returns the persisted mapping when
the ledger file exists and parses, and the empty mapping when the file is
absent or unparsable; in the embedding it is a total function, so a
missing or corrupt ledger file is never a fatal condition. -/
theorem c8_load_state_permissive :
    (∀ st : Ledger, load_state true (some st) = st) ∧
    load_state true none = [] ∧
    (∀ parsed : Option Ledger, load_state false parsed = []) :=
  ⟨fun _ => rfl, rfl, fun _ => rfl⟩

/-- C6 as stated is false at this input: for a package without a url the
Fetcher still performs a filesystem effect, because
`DOWNLOAD_DIR.mkdir(exist_ok=True)` runs before the url check (line 55 of
`main.py`): starting from a world where the download directory does not
exist, the world after the call differs from the world before it. -/
theorem c6_counterexample :
    (download_package (fun _ => false) ⟨"A", "1.0", none, []⟩
        ⟨false, [], []⟩).2 ≠ ⟨false, [], []⟩ := by decide

/-- C6 amended: for every package whose url field is absent or empty, the
Artifact Fetcher returns the no-artifact result (`none`, not an error),
makes no network request and writes no file; its only effect is ensuring
that the fetch cache directory exists. -/
theorem c6_no_url_returns_no_artifact (net : String → Bool) (pkg : Package)
    (w : World) (h : pkg.url = none ∨ pkg.url = some "") :
    download_package net pkg w = (none, { w with dirExists := true }) :=
  download_package_no_url net pkg w h

/-- Witness for `c6_no_url_returns_no_artifact` at a concrete input. -/
theorem c6_no_url_returns_no_artifact_witness :
    download_package (fun _ => true) ⟨"A", "1.0", some "", []⟩ ⟨true, ["f"], []⟩ =
      (none, ⟨true, ["f"], []⟩) :=
  c6_no_url_returns_no_artifact (fun _ => true) ⟨"A", "1.0", some "", []⟩
    ⟨true, ["f"], []⟩ (Or.inr rfl)

/-- C2 fails on the code: in install mode the ledger entry is written even
when the install was a no-op.  Here package `A` has no install commands
for platform `macos` (and no url), yet after the loop the ledger holds an
entry for `A` while the executed-command trace is empty — no command ever
ran.  (`main.py` lines 218–224 write `state[pkg['name']]` unconditionally
after `install_package`, which merely returns when
`install_commands.get(platform_key, [])` is empty.) -/
theorem c2_noop_install_writes_ledger :
    installLoop (fun _ => false) (fun _ => true) "macos" "T"
      [⟨"A", "1.0", none, [("debian", ["apt-install-a"])]⟩] [] ⟨true, [], []⟩ [] =
      .ok ([("A", ⟨"1.0", "T"⟩)], ⟨true, [], []⟩, []) := by decide

/-- C3 fails on the code in install mode: package `B` has a url, the fetch
is attempted and fails (the request is in the net log, no file is stored),
yet the install command still runs (trace `["run-f"]`) and the ledger
entry for `B` is still written.  Only update mode guards install and
ledger write behind `if downloaded_file:`. -/
theorem c3_failed_fetch_still_installs :
    installLoop (fun _ => false) (fun _ => true) "debian" "T"
      [⟨"B", "2.0", some "http://h/f.pkg", [("debian", ["run-f"])]⟩] []
      ⟨true, [], []⟩ [] =
      .ok ([("B", ⟨"2.0", "T"⟩)], ⟨true, [], ["http://h/f.pkg"]⟩, ["run-f"]) := by
  decide

/-- C10: in update mode, a package whose index record has no url (or an
empty url) never has an update applied: its ledger entry, the command
trace and the `updates_available` flag are all left unchanged, whatever
the version comparison said, because the fetcher returns no local path and
`update_packages` installs and overwrites the entry only under
`if downloaded_file:`. -/
theorem c10_no_url_update_leaves_ledger (net ok : String → Bool)
    (platformKey now : String) (s : UState) (pkg : Package)
    (h : pkg.url = none ∨ pkg.url = some "") :
    ∃ s', updateStep net ok platformKey now s pkg = .ok s' ∧
      s'.st = s.st ∧ s'.trace = s.trace ∧ s'.updated = s.updated := by
  unfold updateStep
  cases hl : s.st.lookup pkg.name with
  | none => exact ⟨s, rfl, rfl, rfl, rfl⟩
  | some entry =>
    by_cases h1 : (pkg.version == "latest" && entry.version != "latest") = true
    · simp only [h1, if_true, performUpdate, download_package_no_url net pkg _ h]
      exact ⟨_, rfl, rfl, rfl, rfl⟩
    · by_cases h2 : (pkg.version != "latest" && entry.version != pkg.version) = true
      · simp only [h1, h2, if_false, if_true, Bool.false_eq_true, performUpdate,
          download_package_no_url net pkg _ h]
        exact ⟨_, rfl, rfl, rfl, rfl⟩
      · simp only [h1, h2, Bool.false_eq_true, if_false]
        exact ⟨s, rfl, rfl, rfl, rfl⟩

/-- Witness for `c10_no_url_update_leaves_ledger`: a ledger entry with
version 1.0 against indexed version 2.0 (an update-triggering mismatch),
but the package has no url; nothing about the ledger changes. -/
theorem c10_no_url_update_leaves_ledger_witness :
    ∃ s', updateStep (fun _ => true) (fun _ => true) "debian" "T"
        ⟨[("A", ⟨"1.0", "T0"⟩)], ⟨true, [], []⟩, [], false, []⟩
        ⟨"A", "2.0", none, [("debian", ["run-a"])]⟩ = .ok s' ∧
      s'.st = [("A", ⟨"1.0", "T0"⟩)] ∧ s'.trace = [] ∧ s'.updated = false :=
  c10_no_url_update_leaves_ledger (fun _ => true) (fun _ => true) "debian" "T"
    ⟨[("A", ⟨"1.0", "T0"⟩)], ⟨true, [], []⟩, [], false, []⟩
    ⟨"A", "2.0", none, [("debian", ["run-a"])]⟩ (Or.inl rfl)

/-- C1: for any package processed by the Update Reconciler against any
current ledger, an update is triggered (the package is announced for
update, which is what guards the fetch-and-install of the branch) exactly
when a ledger entry for its name exists and either the indexed version is
"latest" while the ledger version is not, or the indexed version is not
"latest" and differs from the ledger version by exact string comparison;
in every other case, including absence of a ledger entry, the step leaves
the whole reconciler state untouched. -/
theorem c1_update_trigger_iff (net ok : String → Bool) (platformKey now : String)
    (s : UState) (pkg : Package) :
    (announcedOf (updateStep net ok platformKey now s pkg) =
        s.announced ++ [pkg.name] ↔
      ∃ e : Entry, s.st.lookup pkg.name = some e ∧
        ((pkg.version = "latest" ∧ e.version ≠ "latest") ∨
         (pkg.version ≠ "latest" ∧ e.version ≠ pkg.version))) ∧
    (updateStep net ok platformKey now s pkg = .ok s ↔
      ¬ ∃ e : Entry, s.st.lookup pkg.name = some e ∧
        ((pkg.version = "latest" ∧ e.version ≠ "latest") ∨
         (pkg.version ≠ "latest" ∧ e.version ≠ pkg.version))) := by
  cases hl : s.st.lookup pkg.name with
  | none =>
    simp only [updateStep, hl]
    constructor
    · simp [announcedOf]
    · simp
  | some entry =>
    have p1 : ((pkg.version == "latest" && entry.version != "latest") = true) ↔
        (pkg.version = "latest" ∧ entry.version ≠ "latest") := by simp
    have p2 : ((pkg.version != "latest" && entry.version != pkg.version) = true) ↔
        (pkg.version ≠ "latest" ∧ entry.version ≠ pkg.version) := by simp
    simp only [updateStep, hl]
    by_cases h1 : (pkg.version == "latest" && entry.version != "latest") = true
    · rw [if_pos h1]
      have hex : ∃ e : Entry, (some entry : Option Entry) = some e ∧
          ((pkg.version = "latest" ∧ e.version ≠ "latest") ∨
           (pkg.version ≠ "latest" ∧ e.version ≠ pkg.version)) :=
        ⟨entry, rfl, Or.inl (p1.mp h1)⟩
      refine ⟨iff_of_true (announcedOf_performUpdate ..) hex,
        iff_of_false ?_ (not_not_intro hex)⟩
      intro hok
      have h := congrArg announcedOf hok
      rw [announcedOf_performUpdate] at h
      simp [announcedOf] at h
    · by_cases h2 : (pkg.version != "latest" && entry.version != pkg.version) = true
      · rw [if_neg h1, if_pos h2]
        have hex : ∃ e : Entry, (some entry : Option Entry) = some e ∧
            ((pkg.version = "latest" ∧ e.version ≠ "latest") ∨
             (pkg.version ≠ "latest" ∧ e.version ≠ pkg.version)) :=
          ⟨entry, rfl, Or.inr (p2.mp h2)⟩
        refine ⟨iff_of_true (announcedOf_performUpdate ..) hex,
          iff_of_false ?_ (not_not_intro hex)⟩
        intro hok
        have h := congrArg announcedOf hok
        rw [announcedOf_performUpdate] at h
        simp [announcedOf] at h
      · rw [if_neg h1, if_neg h2]
        have hni : ¬ ∃ e : Entry, (some entry : Option Entry) = some e ∧
            ((pkg.version = "latest" ∧ e.version ≠ "latest") ∨
             (pkg.version ≠ "latest" ∧ e.version ≠ pkg.version)) := by
          rintro ⟨e, he, hc⟩
          obtain rfl : entry = e := Option.some.inj he
          rcases hc with hc | hc
          · exact h1 (p1.mpr hc)
          · exact h2 (p2.mpr hc)
        exact ⟨iff_of_false (by simp [announcedOf]) hni, iff_of_true rfl hni⟩

/-- C5: the first command that exits non-zero aborts the entire run.  If
the loop completed the packages `l₁`, and the platform command list of the
next package `p` is `pre ++ c :: post` with every command of `pre`
succeeding and `c` failing, then the whole run over `l₁ ++ p :: l₂` ends
in `sys.exit(1)` (`.error`): the trace extends only by `pre ++ [c]` — no
command of `post` runs, no package of `l₂` is processed, and no ledger
entry for `p` is written (the aborted run carries only world and trace;
`save_state` is never reached). -/
theorem c5_first_failure_aborts_run (net ok : String → Bool)
    (platformKey now : String) (l₁ : List Package) (p : Package)
    (l₂ : List Package) (st st' : Ledger) (w w' : World) (tr tr' : List String)
    (pre : List String) (c : String) (post : List String)
    (h1 : installLoop net ok platformKey now l₁ st w tr = .ok (st', w', tr'))
    (h2 : cmdsFor p platformKey = pre ++ c :: post)
    (h3 : ∀ x ∈ pre, ok x = true) (h4 : ok c = false) :
    installLoop net ok platformKey now (l₁ ++ p :: l₂) st w tr =
      .error ((download_package net p w').2, tr' ++ (pre ++ [c])) := by
  rw [installLoop_append net ok platformKey now l₁ (p :: l₂) st st' w w' tr tr' h1]
  have hcmds : install_package ok p (download_package net p w').1 platformKey =
      .error (pre ++ [c]) := by
    unfold install_package
    rw [h2]
    have hne : (pre ++ c :: post).isEmpty = false := by cases pre <;> rfl
    rw [if_neg (by simp [hne])]
    exact execute_commands_first_failure ok pre c post h3 h4
  simp only [installLoop]
  rw [hcmds]

/-- Witness for `c5_first_failure_aborts_run`: package `P` has commands
`good`, `bad`, `never`; `good` succeeds and `bad` fails, so the run over
`[P, Q]` aborts with trace `["good", "bad"]` — `never` and all of `Q` are
unprocessed. -/
theorem c5_first_failure_aborts_run_witness :
    ((fun s => s == "good") "bad" = false) ∧
    installLoop (fun _ => true) (fun s => s == "good") "debian" "T"
      ([] ++ ⟨"P", "1.0", none, [("debian", ["good", "bad", "never"])]⟩ ::
        [⟨"Q", "1.0", none, [("debian", ["q-cmd"])]⟩]) [] ⟨true, [], []⟩ [] =
      .error (⟨true, [], []⟩, ["good", "bad"]) :=
  ⟨rfl,
    c5_first_failure_aborts_run (fun _ => true) (fun s => s == "good") "debian" "T"
      [] ⟨"P", "1.0", none, [("debian", ["good", "bad", "never"])]⟩
      [⟨"Q", "1.0", none, [("debian", ["q-cmd"])]⟩] [] [] ⟨true, [], []⟩
      ⟨true, [], []⟩ [] [] ["good"] "bad" ["never"] rfl rfl
      (by decide) rfl⟩

/-- C7: a package whose derived filename is already in the fetch cache is
never re-fetched: the Fetcher returns the existing path with no network
request and no file write; and a second fetch right after any fetch that
returned a path is a no-op returning the same path — fetching is
idempotent by filename. -/
theorem c7_cached_fetch_skipped :
    (∀ (net : String → Bool) (pkg : Package) (w : World) (u : String),
        pkg.url = some u → u ≠ "" → filenameOf u ∈ w.files →
        download_package net pkg w =
          (some (filenameOf u), { w with dirExists := true })) ∧
    (∀ (net : String → Bool) (pkg : Package) (w w' : World) (f : String),
        download_package net pkg w = (some f, w') →
        download_package net pkg w' = (some f, w')) := by
  constructor
  · intro net pkg w u hu hne hmem
    simp [download_package, hu, hne, hmem]
  · intro net pkg w w' f h
    cases hu : pkg.url with
    | none => simp [download_package, hu] at h
    | some u =>
      by_cases he : u = ""
      · simp [download_package, hu, he] at h
      · by_cases hmem : filenameOf u ∈ w.files
        · simp [download_package, hu, he, hmem, Prod.ext_iff] at h
          obtain ⟨hf, hw⟩ := h
          rw [← hw, ← hf]
          simp [download_package, hu, he, hmem]
        · by_cases hnet : net u = true
          · simp [download_package, hu, he, hmem, hnet, Prod.ext_iff] at h
            obtain ⟨hf, hw⟩ := h
            rw [← hw, ← hf]
            simp [download_package, hu, he]
          · simp [download_package, hu, he, hmem, hnet] at h

/-- Witness for `c7_cached_fetch_skipped`: the artifact `f.pkg` is already
cached, so the fetch of package `B` is skipped and returns it; applied
twice through the idempotency part as well. -/
theorem c7_cached_fetch_skipped_witness :
    download_package (fun _ => false) ⟨"B", "2.0", some "http://h/f.pkg", []⟩
        ⟨true, ["f.pkg"], []⟩ = (some "f.pkg", ⟨true, ["f.pkg"], []⟩) ∧
    download_package (fun _ => false) ⟨"B", "2.0", some "http://h/f.pkg", []⟩
        ⟨true, ["f.pkg"], []⟩ = (some "f.pkg", ⟨true, ["f.pkg"], []⟩) :=
  ⟨c7_cached_fetch_skipped.1 (fun _ => false)
      ⟨"B", "2.0", some "http://h/f.pkg", []⟩ ⟨true, ["f.pkg"], []⟩
      "http://h/f.pkg" rfl (by decide) (by decide),
    c7_cached_fetch_skipped.2 (fun _ => false)
      ⟨"B", "2.0", some "http://h/f.pkg", []⟩ ⟨true, ["f.pkg"], []⟩
      ⟨true, ["f.pkg"], []⟩ "f.pkg"
      (c7_cached_fetch_skipped.1 (fun _ => false)
        ⟨"B", "2.0", some "http://h/f.pkg", []⟩ ⟨true, ["f.pkg"], []⟩
        "http://h/f.pkg" rfl (by decide) (by decide))⟩

/-- C4: the install-mode Selection Resolver produces a list with pairwise
distinct package names, and it equals the first-seen deduplication of the
per-token case-insensitive catalog lookups — so first-seen order is
preserved, each token is matched case-insensitively against
`Package.name` (the `lookupPkg` predicate), and a package already present
is never appended twice. -/
theorem c4_selection_nodup_first_seen (packages : List Package)
    (tokens : List String) :
    (resolveInstall packages tokens).1.Pairwise (fun a b => a.name ≠ b.name) ∧
    (resolveInstall packages tokens).1 =
      specFirstSeenDedup (tokens.filterMap (lookupPkg packages)) := by
  have heq : (resolveInstall packages tokens).1 =
      specFirstSeenDedup (tokens.filterMap (lookupPkg packages)) := by
    unfold resolveInstall specFirstSeenDedup
    rw [foldl_selectStep_fst, foldl_selectStep1_filterMap]
    rw [dedupFold_eq_aux (tokens.filterMap (lookupPkg packages)) [] [] (by simp)]
    rfl
  refine ⟨?_, heq⟩
  rw [heq]
  have hq : ∀ p ∈ specFirstSeenDedup (tokens.filterMap (lookupPkg packages)),
      lookupPkg packages p.name = some p := by
    intro p hp
    have hp' : p ∈ tokens.filterMap (lookupPkg packages) :=
      mem_specFirstSeenDedupAux _ [] p hp
    obtain ⟨tok, _, hfind⟩ := List.mem_filterMap.mp hp'
    exact lookupPkg_self packages tok p hfind
  have hnd : (specFirstSeenDedup (tokens.filterMap (lookupPkg packages))).Nodup :=
    (nodup_specFirstSeenDedupAux _ []).1
  refine List.Pairwise.imp_of_mem ?_ hnd
  intro a b ha hb hab hname
  exact hab (lookupPkg_name_inj packages a b (hq a ha) (hq b hb) (by rw [hname]))

/-- C9 as stated is false at this input: the pattern catalog holds the
key "Dev", which matches the requested token "Dev" even literally (so a
fortiori case-insensitively), yet the resolver selects nothing and
reports the pattern as not found — `main.py` line 231 lowercases only the
requested name and compares it to the catalog keys verbatim
("dev" vs "Dev"), so the lookup is not case-insensitive. -/
theorem c9_counterexample :
    (resolvePattern [⟨"A", "1.0", none, []⟩] [("Dev", ["A"])] ["Dev"]).1 = [] ∧
    (resolvePattern [⟨"A", "1.0", none, []⟩] [("Dev", ["A"])] ["Dev"]).2 =
      ["Pattern Dev not found."] ∧
    ([("Dev", ["A"])] : List (String × List String)).any
      (fun kv => strLower kv.1 == strLower "Dev") = true := by decide

/-- C9 amended: in pattern mode every requested pattern name is lowercased
and looked up by exact string comparison against the pattern catalog keys
(case-insensitive in the request only — a catalog key that is not all
lowercase is never matched); a pattern that resolves to no name list
(unknown, or known but empty) produces a non-fatal warning and is skipped;
an unknown package name inside a found pattern produces a non-fatal
warning and is skipped; and when the final resolved list is empty the run
ends successfully (exit 0) with no action. -/
theorem c9_pattern_mode_resolution :
    (∀ (packages : List Package) (patterns : List (String × List String))
        (acc : List Package × List String) (tok : String),
        (patterns.lookup (strLower tok)).getD [] = [] →
        resolvePatternStep packages patterns acc tok =
          (acc.1, acc.2 ++ ["Pattern " ++ tok ++ " not found."])) ∧
    (∀ (packages : List Package) (m : String → String)
        (acc : List Package × List String) (name : String),
        lookupPkg packages name = none →
        selectStep packages m acc name = (acc.1, acc.2 ++ [m name])) ∧
    (∀ (net ok : String → Bool) (platformKey now : String)
        (packages : List Package) (patterns : List (String × List String))
        (tokens : List String) (st : Ledger) (w : World),
        (resolvePattern packages patterns tokens).1 = [] →
        mainPattern net ok platformKey now packages patterns tokens st w =
          .exitSuccess (resolvePattern packages patterns tokens).2) := by
  refine ⟨?_, ?_, ?_⟩
  · intro packages patterns acc tok h
    simp [resolvePatternStep, h]
  · intro packages m acc name h
    simp [selectStep, h]
  · intro net ok platformKey now packages patterns tokens st w h
    simp [mainPattern, h]

/-- Witness for `c9_pattern_mode_resolution`: an unknown pattern name
warns and selects nothing, an unknown package name warns and selects
nothing, and an empty final selection ends the run with exit 0. -/
theorem c9_pattern_mode_resolution_witness :
    resolvePatternStep [] [] ([], []) "dev" = ([], ["Pattern dev not found."]) ∧
    selectStep [] installWarn ([], []) "z" = ([], [installWarn "z"]) ∧
    mainPattern (fun _ => true) (fun _ => true) "debian" "T" [] [] ["dev"] []
        ⟨true, [], []⟩ = .exitSuccess ["Pattern dev not found."] :=
  ⟨c9_pattern_mode_resolution.1 [] [] ([], []) "dev" rfl,
    c9_pattern_mode_resolution.2.1 [] installWarn ([], []) "z" rfl,
    c9_pattern_mode_resolution.2.2 (fun _ => true) (fun _ => true) "debian" "T"
      [] [] ["dev"] [] ⟨true, [], []⟩ (by decide)⟩

end Comin
